import Mathlib

/-!
# Verification of the turtle-rs path recording-and-playback engine

Shallow embedding of `src/lib.rs` of the turtle-rs library: the op log,
the turtle state machine, the `Lines` segment iterator, the PNG raster
renderer's Bresenham line drawer, and the SDL builder defaults.

Modelling conventions:
* Rust `f32` coordinates are modelled as exact rationals `ℚ`.  The only
  `f32` operations the claims depend on are field arithmetic (`+`, `*`),
  which `ℚ` provides, and the trigonometric functions
  `f32::cos (h.to_radians())` / `f32::sin (h.to_radians())`, which are kept
  abstract: the embedding is parametrised by two functions
  `cosD sinD : ℚ → ℚ` taking the heading in degrees.  All structural
  claims proved below hold for every choice of `cosD`/`sinD`; concrete
  witnesses instantiate them.
* The Rust cast `f as i32` truncates toward zero; on `ℚ` this is
  `truncQ` below (`Int.div` of numerator by denominator, which truncates
  toward zero).
* `u8` color channels are carried opaquely as `Nat` triples (no channel
  arithmetic occurs anywhere in the code).
* `RgbImage` is modelled by its dimensions, its `from_pixel` fill color
  and the log of `put_pixel` writes (most recent first); reading a pixel
  finds the most recent write, defaulting to the fill color.
-/

/-- Truncation of a rational toward zero, modelling Rust's `as i32` cast
from `f32` (`Int.div` truncates toward zero and `q.den > 0`). -/
def truncQ (q : ℚ) : Int :=
  Int.tdiv q.num q.den

/-- RGB color, 8 bits per channel (`(u8, u8, u8)` in the source). -/
abbrev Color := Nat × Nat × Nat

/-- `enum TurtleOp` from lib.rs lines 36-40: `MoveTo(f32, f32)`,
`LineTo(f32, f32)`, `SetColor(u8, u8, u8)`. -/
inductive TurtleOp : Type
  | moveTo (x y : ℚ)
  | lineTo (x y : ℚ)
  | setColor (r g b : Nat)
deriving DecidableEq, Repr

/-- `struct Turtle` from lib.rs lines 29-34: position `(x, y)`, heading
`h` in degrees, and the append-only op log `ops`. -/
structure Turtle : Type where
  x : ℚ
  y : ℚ
  h : ℚ
  ops : List TurtleOp
deriving DecidableEq, Repr

/-- `Turtle::new` (lib.rs lines 44-51): origin, heading 0, empty log. -/
def Turtle.new : Turtle :=
  ⟨0, 0, 0, []⟩

/-- `Turtle::forward` (lib.rs lines 54-59): advance by `dist` along the
heading and append `LineTo` of the new position.  `cosD h` and `sinD h`
stand for `f32::cos(h.to_radians())` and `f32::sin(h.to_radians())`. -/
def Turtle.forward (cosD sinD : ℚ → ℚ) (t : Turtle) (dist : Int) : Turtle :=
  let nx := t.x + (dist : ℚ) * cosD t.h
  let ny := t.y + (dist : ℚ) * sinD t.h
  ⟨nx, ny, t.h, t.ops ++ [TurtleOp.lineTo nx ny]⟩

/-- `Turtle::turn` (lib.rs lines 62-64): `self.h += degrees`, nothing
else. -/
def Turtle.turn (t : Turtle) (degrees : ℚ) : Turtle :=
  { t with h := t.h + degrees }

/-- `Turtle::move_to` (lib.rs lines 67-71): jump to `(nx, ny)` and append
`MoveTo`. -/
def Turtle.move_to (t : Turtle) (nx ny : Int) : Turtle :=
  ⟨(nx : ℚ), (ny : ℚ), t.h, t.ops ++ [TurtleOp.moveTo (nx : ℚ) (ny : ℚ)]⟩

/-- `Turtle::set_color` (lib.rs lines 74-76): append `SetColor`, no cursor
change. -/
def Turtle.set_color (t : Turtle) (r g b : Nat) : Turtle :=
  { t with ops := t.ops ++ [TurtleOp.setColor r g b] }

/-- `Turtle::position` (lib.rs lines 79-81). -/
def Turtle.position (t : Turtle) : ℚ × ℚ :=
  (t.x, t.y)

/-- `Turtle::heading` (lib.rs lines 84-86). -/
def Turtle.heading (t : Turtle) : ℚ :=
  t.h

/-- One public turtle command, the surface over which the spec's
"command sequence C" quantifies. -/
inductive Cmd : Type
  | forward (dist : Int)
  | turn (degrees : ℚ)
  | moveTo (nx ny : Int)
  | setColor (r g b : Nat)
deriving DecidableEq, Repr

/-- Apply one command to a turtle. -/
def applyCmd (cosD sinD : ℚ → ℚ) (t : Turtle) : Cmd → Turtle
  | Cmd.forward d => t.forward cosD sinD d
  | Cmd.turn deg => t.turn deg
  | Cmd.moveTo nx ny => t.move_to nx ny
  | Cmd.setColor r g b => t.set_color r g b

/-- Issue a command sequence to a turtle, in order. -/
def applyCmds (cosD sinD : ℚ → ℚ) (cs : List Cmd) (t : Turtle) : Turtle :=
  cs.foldl (applyCmd cosD sinD) t

/-- `struct Line` from lib.rs lines 118-122 (`end` is a reserved word in
Lean, rendered `endp`). -/
structure Line : Type where
  start : Int × Int
  endp : Int × Int
  color : Color
deriving DecidableEq, Repr

/-- `struct Lines` from lib.rs lines 110-115: the iterator state is the
remaining op slice, the current integer pen position and the current
color. -/
structure Lines : Type where
  i : List TurtleOp
  x : Int
  y : Int
  color : Color
deriving DecidableEq, Repr

/-- `Turtle::lines` (lib.rs lines 89-96): a fresh iterator over the log,
starting at `(0, 0)` with color white. -/
def Turtle.lines (t : Turtle) : Lines :=
  ⟨t.ops, 0, 0, (255, 255, 255)⟩

/-- The loop body of `Lines::next` (lib.rs lines 127-155), recursing over
the remaining ops: `MoveTo` and `SetColor` update the state and continue,
`LineTo` returns a segment, end of log returns `none`.  Because the Rust
`next(&mut self)` mutates the iterator in place, the embedding returns
the updated iterator state alongside the optional segment. -/
def linesNext : List TurtleOp → Int → Int → Color → Option Line × Lines
  | [], x, y, c => (none, ⟨[], x, y, c⟩)
  | TurtleOp.moveTo tx ty :: rest, _, _, c =>
      linesNext rest (truncQ tx) (truncQ ty) c
  | TurtleOp.lineTo tx ty :: rest, x, y, c =>
      (some ⟨(x, y), (truncQ tx, truncQ ty), c⟩,
       ⟨rest, truncQ tx, truncQ ty, c⟩)
  | TurtleOp.setColor r g b :: rest, x, y, _ =>
      linesNext rest x y (r, g, b)

/-- `Lines::next` as a step function on the iterator state. -/
def Lines.next (s : Lines) : Option Line × Lines :=
  linesNext s.i s.x s.y s.color

/-- Drive `Lines.next` to exhaustion, collecting the emitted segments;
`fuel` bounds the number of steps (each `next` that yields a segment
consumes at least one op, so `s.i.length + 1` fuel always exhausts the
iterator). -/
def linesIter : Nat → Lines → List Line
  | 0, _ => []
  | n + 1, s =>
      match s.next with
      | (none, _) => []
      | (some l, s') => l :: linesIter n s'

/-- Drive `Lines.next` until it yields `none`; the resulting iterator
state (whose pen position is the replayed endpoint of the log). -/
def linesIterEnd : Nat → Lines → Lines
  | 0, s => s
  | n + 1, s =>
      match s.next with
      | (none, s') => s'
      | (some _, s') => linesIterEnd n s'

/-- All segments obtained by iterating a `Lines` value to exhaustion. -/
def Lines.toList (s : Lines) : List Line :=
  linesIter (s.i.length + 1) s

/-- The iterator state after a `Lines` value is iterated to exhaustion. -/
def Lines.endState (s : Lines) : Lines :=
  linesIterEnd (s.i.length + 1) s

/-- The segment list produced by replaying an op log from pen position
`(x, y)` and color `c`: the direct fold form of `Lines::next`. -/
def linesListFrom : List TurtleOp → Int → Int → Color → List Line
  | [], _, _, _ => []
  | TurtleOp.moveTo tx ty :: rest, _, _, c =>
      linesListFrom rest (truncQ tx) (truncQ ty) c
  | TurtleOp.lineTo tx ty :: rest, x, y, c =>
      ⟨(x, y), (truncQ tx, truncQ ty), c⟩ ::
        linesListFrom rest (truncQ tx) (truncQ ty) c
  | TurtleOp.setColor r g b :: rest, x, y, _ =>
      linesListFrom rest x y (r, g, b)

/-- The iterator state left after replaying a whole op log from pen
position `(x, y)` and color `c`. -/
def iterState : List TurtleOp → Int → Int → Color → Int × Int × Color
  | [], x, y, c => (x, y, c)
  | TurtleOp.moveTo tx ty :: rest, _, _, c =>
      iterState rest (truncQ tx) (truncQ ty) c
  | TurtleOp.lineTo tx ty :: rest, _, _, c =>
      iterState rest (truncQ tx) (truncQ ty) c
  | TurtleOp.setColor r g b :: rest, x, y, _ =>
      iterState rest x y (r, g, b)

/-- The `image::RgbImage` as used by the raster renderer: dimensions, the
`from_pixel` fill color and the log of `put_pixel` writes, most recent
first. -/
structure RgbImage : Type where
  width : Nat
  height : Nat
  fill : Color
  pixels : List (Nat × Nat × Color)
deriving DecidableEq, Repr

/-- `RgbImage::from_pixel(w, h, c)`: a `w × h` image entirely filled with
`c`. -/
def RgbImage.from_pixel (w h : Nat) (c : Color) : RgbImage :=
  ⟨w, h, c, []⟩

/-- `img.put_pixel(x, y, c)`: record a write of color `c` at `(x, y)`. -/
def RgbImage.put_pixel (img : RgbImage) (x y : Nat) (c : Color) : RgbImage :=
  { img with pixels := (x, y, c) :: img.pixels }

/-- Read the pixel at `(x, y)`: the most recent `put_pixel` there, or the
fill color. -/
def RgbImage.get (img : RgbImage) (x y : Nat) : Color :=
  match img.pixels.find? (fun p => p.1 == x && p.2.1 == y) with
  | some p => p.2.2
  | none => img.fill

/-- The bounds check of `draw_line_img` (lib.rs line 210):
`x >= 0 && y >= 0 && x < w && y < h`. -/
def inbounds (w h : Nat) (x y : Int) : Bool :=
  0 ≤ x && 0 ≤ y && x < (w : Int) && y < (h : Int)

/-- The `loop` of `draw_line_img` (lib.rs lines 226-246), with explicit
fuel.  Parameters `x1 y1 dx dy sx sy` and the pixel color `px` are fixed
by the caller; the loop state is the cursor `(x, y)`, the error
accumulator `err` and the image.  Returns `none` only when the fuel runs
out (the source loop has no fuel; `drawLoop_isSome` shows
`img.width + img.height + 2` fuel always suffices, so the modelled loop
and the source loop agree).  Arithmetic here is exact (unbounded `Int`);
the companion `drawLoop32` below models the source's release-mode `i32`
two's-complement wrapping, which differs exactly at overflow. -/
def drawLoop (x1 y1 dx dy sx sy : Int) (px : Color) :
    Nat → Int → Int → Int → RgbImage → Option RgbImage
  | 0, _, _, _, _ => none
  | fuel + 1, x, y, err, img =>
      if inbounds img.width img.height x y = false then
        some img
      else
        let img' := img.put_pixel x.toNat y.toNat px
        if x = x1 ∧ y = y1 then
          some img'
        else
          let e2 := 2 * err
          let err₁ := if e2 ≥ dy then err + dy else err
          let x' := if e2 ≥ dy then x + sx else x
          let err₂ := if e2 ≤ dx then err₁ + dx else err₁
          let y' := if e2 ≤ dx then y + sy else y
          drawLoop x1 y1 dx dy sx sy px fuel x' y' err₂ img'

/-- The call `draw_line_img` makes into its loop, with the setup of
lib.rs lines 212-224: `dx = |x1 - x0|`, `dy = -|y1 - y0|`, `sx`/`sy` step
toward the endpoint, `err = dx + dy`, cursor starting at `(x0, y0)`. -/
def drawLineCall (img : RgbImage) (line : Line) : Option RgbImage :=
  let x0 := line.start.1
  let y0 := line.start.2
  let x1 := line.endp.1
  let y1 := line.endp.2
  let dx : Int := |x1 - x0|
  let dy : Int := -|y1 - y0|
  let sx : Int := if x0 < x1 then 1 else -1
  let sy : Int := if y0 < y1 then 1 else -1
  drawLoop x1 y1 dx dy sx sy line.color
    (img.width + img.height + 2) x0 y0 (dx + dy) img

/-- `draw_line_img` (lib.rs lines 207-247): Bresenham's algorithm over
all octants.  The fuel never runs out (`drawLoop_isSome` below), so the
fallback branch is dead and the function agrees with the source loop. -/
def draw_line_img (img : RgbImage) (line : Line) : RgbImage :=
  match drawLineCall img line with
  | some img' => img'
  | none => img

/-- Two's-complement wrapping to 32 bits: the value of an `i32` addition,
subtraction, negation or doubling in a Rust release build when the exact
result overflows (`Int.emod` with a positive modulus is non-negative, so
this lands in `[-2^31, 2^31)`). -/
def wrap32 (n : Int) : Int :=
  (n + 2147483648) % 4294967296 - 2147483648

/-- `i32::abs` with release-build semantics: `|n|` wrapped to 32 bits, so
`abs32 (-2^31) = -2^31` (a debug build panics there instead). -/
def abs32 (n : Int) : Int :=
  wrap32 |n|

/-- The `loop` of `draw_line_img` (lib.rs lines 226-246) with the
source's actual release-mode `i32` arithmetic: every addition and the
doubling of `err` wrap to 32 bits.  On inputs where nothing overflows it
coincides with `drawLoop`; at overflow it does not. -/
def drawLoop32 (x1 y1 dx dy sx sy : Int) (px : Color) :
    Nat → Int → Int → Int → RgbImage → Option RgbImage
  | 0, _, _, _, _ => none
  | fuel + 1, x, y, err, img =>
      if inbounds img.width img.height x y = false then
        some img
      else
        let img' := img.put_pixel x.toNat y.toNat px
        if x = x1 ∧ y = y1 then
          some img'
        else
          let e2 := wrap32 (2 * err)
          let err₁ := if e2 ≥ dy then wrap32 (err + dy) else err
          let x' := if e2 ≥ dy then wrap32 (x + sx) else x
          let err₂ := if e2 ≤ dx then wrap32 (err₁ + dx) else err₁
          let y' := if e2 ≤ dx then wrap32 (y + sy) else y
          drawLoop32 x1 y1 dx dy sx sy px fuel x' y' err₂ img'

/-- The setup of `draw_line_img` (lib.rs lines 212-224) with release-mode
`i32` semantics: `x1 - x0` wraps, `i32::abs` wraps, `dx + dy` wraps.  The
fuel is an observation bound, not part of the source: the source loop
terminates on an input exactly when some fuel makes this call return
`some`. -/
def drawLineCall32 (img : RgbImage) (line : Line) (fuel : Nat) : Option RgbImage :=
  let x0 := line.start.1
  let y0 := line.start.2
  let x1 := line.endp.1
  let y1 := line.endp.2
  let dx : Int := abs32 (wrap32 (x1 - x0))
  let dy : Int := wrap32 (-(abs32 (wrap32 (y1 - y0))))
  let sx : Int := if x0 < x1 then 1 else -1
  let sy : Int := if y0 < y1 then 1 else -1
  drawLoop32 x1 y1 dx dy sx sy line.color fuel x0 y0 (wrap32 (dx + dy)) img

/-- `struct PngTurtle` (lib.rs lines 159-164): the raster render builder. -/
structure PngTurtle : Type where
  size : Nat × Nat
  antialias : Bool
  bg : Color
  turtle : Turtle

/-- `PngTurtle::new` (lib.rs lines 167-174): defaults 500×500, no
anti-aliasing, black background. -/
def PngTurtle.new (t : Turtle) : PngTurtle :=
  ⟨(500, 500), false, (0, 0, 0), t⟩

/-- `Turtle::draw_png` (lib.rs lines 99-101). -/
def Turtle.draw_png (t : Turtle) : PngTurtle :=
  PngTurtle.new t

/-- The image built by `PngTurtle::save` (lib.rs lines 195-204) before it
is handed to the PNG encoder: a `from_pixel` background, then every
segment of `turtle.lines()` drawn with `draw_line_img` in order.  (The
file write itself is an external collaborator and is not modelled.) -/
def PngTurtle.save (p : PngTurtle) : RgbImage :=
  (linesListFrom p.turtle.ops 0 0 (255, 255, 255)).foldl draw_line_img
    (RgbImage.from_pixel p.size.1 p.size.2 p.bg)

/-- `struct SdlTurtle` (lib.rs lines 259-266): the animation render
builder (only its configuration record is modelled; the SDL event loop is
an external collaborator). -/
structure SdlTurtle : Type where
  title : String
  size : Nat × Nat
  interactive : Bool
  speed : ℚ
  bg : Color
  turtle : Turtle

/-- `SdlTurtle::new` (lib.rs lines 269-278): defaults title `"turtle-rs"`,
500×500, interactive, speed 60.0, black background. -/
def SdlTurtle.new (t : Turtle) : SdlTurtle :=
  ⟨"turtle-rs", (500, 500), true, 60, (0, 0, 0), t⟩

/-- `Turtle::draw_sdl` (lib.rs lines 104-106). -/
def Turtle.draw_sdl (t : Turtle) : SdlTurtle :=
  SdlTurtle.new t

/-- Termination measure for `drawLoop`: how many unit steps the cursor
can take in its fixed direction before leaving `[0,w) × [0,h)`. -/
def drawMeasure (w h : Nat) (sx sy x y : Int) : Nat :=
  (if sx = 1 then ((w : Int) - x).toNat else (x + 1).toNat) +
    (if sy = 1 then ((h : Int) - y).toNat else (y + 1).toNat)

/-- Number of `forward` commands in a command sequence. -/
def countForward : List Cmd → Nat
  | [] => 0
  | Cmd.forward _ :: rest => countForward rest + 1
  | _ :: rest => countForward rest

/-- Number of `LineTo` operations in an op log. -/
def countLineTo : List TurtleOp → Nat
  | [] => 0
  | TurtleOp.lineTo _ _ :: rest => countLineTo rest + 1
  | _ :: rest => countLineTo rest

/-- Sum of the arguments of all `turn` commands in a command sequence. -/
def turnSum : List Cmd → ℚ
  | [] => 0
  | Cmd.turn deg :: rest => deg + turnSum rest
  | _ :: rest => turnSum rest

/-- `true` when a command is `set_color`. -/
def Cmd.isSetColor : Cmd → Bool
  | Cmd.setColor _ _ _ => true
  | _ => false

/-- The color carried by a `SetColor` op, if it is one. -/
def TurtleOp.colorOf : TurtleOp → Option Color
  | TurtleOp.setColor r g b => some (r, g, b)
  | _ => none

/-- Spec §4.3: the color of an emitted segment is "the color set by the
most recent preceding SetColor op in the log, if any", and white
otherwise: scan the preceding ops from the most recent backwards. -/
def mostRecentColor (pre : List TurtleOp) : Color :=
  (pre.reverse.findSome? TurtleOp.colorOf).getD (255, 255, 255)

/-- Spec §4.1: the state-update table, folding a command over a bare
`(x, y, h)` state with no op log.  `forward(d)`: `x ← x + d·cos(h·π/180)`,
`y ← y + d·sin(h·π/180)`; `turn(deg)`: `h ← h + deg`; `move_to(nx, ny)`:
`x ← nx; y ← ny`; `set_color`: no cursor change. -/
def specStep (cosD sinD : ℚ → ℚ) (st : ℚ × ℚ × ℚ) : Cmd → ℚ × ℚ × ℚ
  | Cmd.forward d => (st.1 + (d : ℚ) * cosD st.2.2, st.2.1 + (d : ℚ) * sinD st.2.2, st.2.2)
  | Cmd.turn deg => (st.1, st.2.1, st.2.2 + deg)
  | Cmd.moveTo nx ny => ((nx : ℚ), (ny : ℚ), st.2.2)
  | Cmd.setColor _ _ _ => st

/-- Spec §8: the fold of a command sequence's state updates starting from
`(0, 0, 0°)`. -/
def specFold (cosD sinD : ℚ → ℚ) (cs : List Cmd) : ℚ × ℚ × ℚ :=
  cs.foldl (specStep cosD sinD) (0, 0, 0)

/-- Spec §4.3, as written: the segment iterator with the color-changed
flag.  State: pen `(x, y)`, current color `c`, flag `ch`; `SetColor` sets
the flag, a `LineTo` emits the segment paired with the flag as observed
and clears it.  (The source's `Lines` carries no such flag; this
definition follows the spec's words, for comparison with
`linesListFrom`.) -/
def specFlagged : List TurtleOp → Int → Int → Color → Bool → List (Line × Bool)
  | [], _, _, _, _ => []
  | TurtleOp.moveTo tx ty :: rest, _, _, c, ch =>
      specFlagged rest (truncQ tx) (truncQ ty) c ch
  | TurtleOp.lineTo tx ty :: rest, x, y, c, ch =>
      (⟨(x, y), (truncQ tx, truncQ ty), c⟩, ch) ::
        specFlagged rest (truncQ tx) (truncQ ty) c false
  | TurtleOp.setColor r g b :: rest, x, y, _, _ =>
      specFlagged rest x y (r, g, b) true

/-! ## Lemmas about the segment iterator -/

theorem linesIter_cons_moveTo (n : Nat) (tx ty : ℚ) (rest : List TurtleOp)
    (x y : Int) (c : Color) :
    linesIter (n + 1) ⟨TurtleOp.moveTo tx ty :: rest, x, y, c⟩ =
      linesIter (n + 1) ⟨rest, truncQ tx, truncQ ty, c⟩ :=
  rfl

theorem linesIter_cons_setColor (n : Nat) (r g b : Nat) (rest : List TurtleOp)
    (x y : Int) (c : Color) :
    linesIter (n + 1) ⟨TurtleOp.setColor r g b :: rest, x, y, c⟩ =
      linesIter (n + 1) ⟨rest, x, y, (r, g, b)⟩ :=
  rfl

theorem linesIter_cons_lineTo (n : Nat) (tx ty : ℚ) (rest : List TurtleOp)
    (x y : Int) (c : Color) :
    linesIter (n + 1) ⟨TurtleOp.lineTo tx ty :: rest, x, y, c⟩ =
      ⟨(x, y), (truncQ tx, truncQ ty), c⟩ ::
        linesIter n ⟨rest, truncQ tx, truncQ ty, c⟩ :=
  rfl

theorem linesIter_nil (n : Nat) (x y : Int) (c : Color) :
    linesIter (n + 1) ⟨[], x, y, c⟩ = [] :=
  rfl

/-- With enough fuel, driving `Lines.next` to exhaustion produces exactly
the direct fold `linesListFrom` of the remaining ops. -/
theorem linesIter_eq_listFrom (ops : List TurtleOp) :
    ∀ (fuel : Nat) (x y : Int) (c : Color), ops.length < fuel →
      linesIter fuel ⟨ops, x, y, c⟩ = linesListFrom ops x y c := by
  induction ops with
  | nil =>
      intro fuel x y c hf
      cases fuel with
      | zero => omega
      | succ n => rw [linesIter_nil]; rfl
  | cons op rest ih =>
      intro fuel x y c hf
      cases fuel with
      | zero => simp at hf
      | succ n =>
          cases op with
          | moveTo tx ty =>
              rw [linesIter_cons_moveTo, ih]
              · rfl
              · simp at hf ⊢; omega
          | lineTo tx ty =>
              rw [linesIter_cons_lineTo, ih]
              · rfl
              · simp at hf ⊢; omega
          | setColor r g b =>
              rw [linesIter_cons_setColor, ih]
              · rfl
              · simp at hf ⊢; omega

theorem linesIterEnd_cons_moveTo (n : Nat) (tx ty : ℚ) (rest : List TurtleOp)
    (x y : Int) (c : Color) :
    linesIterEnd (n + 1) ⟨TurtleOp.moveTo tx ty :: rest, x, y, c⟩ =
      linesIterEnd (n + 1) ⟨rest, truncQ tx, truncQ ty, c⟩ :=
  rfl

theorem linesIterEnd_cons_setColor (n : Nat) (r g b : Nat) (rest : List TurtleOp)
    (x y : Int) (c : Color) :
    linesIterEnd (n + 1) ⟨TurtleOp.setColor r g b :: rest, x, y, c⟩ =
      linesIterEnd (n + 1) ⟨rest, x, y, (r, g, b)⟩ :=
  rfl

theorem linesIterEnd_cons_lineTo (n : Nat) (tx ty : ℚ) (rest : List TurtleOp)
    (x y : Int) (c : Color) :
    linesIterEnd (n + 1) ⟨TurtleOp.lineTo tx ty :: rest, x, y, c⟩ =
      linesIterEnd n ⟨rest, truncQ tx, truncQ ty, c⟩ :=
  rfl

theorem linesIterEnd_nil (n : Nat) (x y : Int) (c : Color) :
    linesIterEnd (n + 1) ⟨[], x, y, c⟩ = ⟨[], x, y, c⟩ :=
  rfl

/-- With enough fuel, the iterator state after exhaustion is the
`iterState` fold of the remaining ops. -/
theorem linesIterEnd_eq_iterState (ops : List TurtleOp) :
    ∀ (fuel : Nat) (x y : Int) (c : Color), ops.length < fuel →
      linesIterEnd fuel ⟨ops, x, y, c⟩ =
        ⟨[], (iterState ops x y c).1, (iterState ops x y c).2.1,
          (iterState ops x y c).2.2⟩ := by
  induction ops with
  | nil =>
      intro fuel x y c hf
      cases fuel with
      | zero => omega
      | succ n => rw [linesIterEnd_nil]; rfl
  | cons op rest ih =>
      intro fuel x y c hf
      cases fuel with
      | zero => simp at hf
      | succ n =>
          cases op with
          | moveTo tx ty =>
              rw [linesIterEnd_cons_moveTo, ih]
              · rfl
              · simp at hf ⊢; omega
          | lineTo tx ty =>
              rw [linesIterEnd_cons_lineTo, ih]
              · rfl
              · simp at hf ⊢; omega
          | setColor r g b =>
              rw [linesIterEnd_cons_setColor, ih]
              · rfl
              · simp at hf ⊢; omega

/-- Replaying a concatenated log replays the first part, then the second
from the state the first part left behind. -/
theorem iterState_append (a : List TurtleOp) :
    ∀ (b : List TurtleOp) (x y : Int) (c : Color),
      iterState (a ++ b) x y c =
        iterState b (iterState a x y c).1 (iterState a x y c).2.1
          (iterState a x y c).2.2 := by
  induction a with
  | nil => intro b x y c; rfl
  | cons op rest ih =>
      intro b x y c
      cases op <;> simp only [List.cons_append, iterState, List.append_eq, ih]

/-- The segments of a concatenated log are the segments of the first part
followed by those of the second, replayed from the intermediate state. -/
theorem linesListFrom_append (a : List TurtleOp) :
    ∀ (b : List TurtleOp) (x y : Int) (c : Color),
      linesListFrom (a ++ b) x y c =
        linesListFrom a x y c ++
          linesListFrom b (iterState a x y c).1 (iterState a x y c).2.1
            (iterState a x y c).2.2 := by
  induction a with
  | nil => intro b x y c; rfl
  | cons op rest ih =>
      intro b x y c
      cases op <;> simp only [List.cons_append, linesListFrom, iterState,
        List.append_eq, ih]

/-- Every `LineTo` yields exactly one segment; `MoveTo` and `SetColor`
yield none. -/
theorem linesListFrom_length (ops : List TurtleOp) :
    ∀ (x y : Int) (c : Color),
      (linesListFrom ops x y c).length = countLineTo ops := by
  induction ops with
  | nil => intro x y c; rfl
  | cons op rest ih =>
      intro x y c
      cases op <;> simp only [linesListFrom, countLineTo, List.length_cons, ih]

/-- The color component of the replay state is the most recent `SetColor`
in the log, defaulting to the starting color. -/
theorem iterState_color (ops : List TurtleOp) :
    ∀ (x y : Int) (c : Color),
      (iterState ops x y c).2.2 = (ops.reverse.findSome? TurtleOp.colorOf).getD c := by
  induction ops with
  | nil => intro x y c; rfl
  | cons op rest ih =>
      intro x y c
      rw [List.reverse_cons, List.findSome?_append]
      cases op with
      | moveTo tx ty =>
          simp only [iterState, ih]
          cases rest.reverse.findSome? TurtleOp.colorOf <;> rfl
      | lineTo tx ty =>
          simp only [iterState, ih]
          cases rest.reverse.findSome? TurtleOp.colorOf <;> rfl
      | setColor r g b =>
          simp only [iterState, ih]
          cases rest.reverse.findSome? TurtleOp.colorOf <;> rfl

/-! ## Lemmas about the turtle state machine -/

theorem truncQ_intCast (n : Int) : truncQ (n : ℚ) = n := by
  simp [truncQ]

theorem applyCmds_nil (cosD sinD : ℚ → ℚ) (t : Turtle) :
    applyCmds cosD sinD [] t = t :=
  rfl

theorem applyCmds_cons (cosD sinD : ℚ → ℚ) (c : Cmd) (cs : List Cmd) (t : Turtle) :
    applyCmds cosD sinD (c :: cs) t =
      applyCmds cosD sinD cs (applyCmd cosD sinD t c) :=
  rfl

/-- The cursor components of a turtle after a command sequence are the
spec's state-update fold of that sequence from the starting cursor. -/
theorem applyCmds_cursor (cosD sinD : ℚ → ℚ) (cs : List Cmd) :
    ∀ t : Turtle,
      ((applyCmds cosD sinD cs t).x, (applyCmds cosD sinD cs t).y,
        (applyCmds cosD sinD cs t).h) =
        cs.foldl (specStep cosD sinD) (t.x, t.y, t.h) := by
  induction cs with
  | nil => intro t; rfl
  | cons c cs ih =>
      intro t
      rw [applyCmds_cons, List.foldl_cons, ih]
      cases c <;> rfl

/-- Each `forward` appends exactly one `LineTo`; `turn`, `move_to` and
`set_color` append none. -/
theorem applyCmds_countLineTo (cosD sinD : ℚ → ℚ) (cs : List Cmd) :
    ∀ t : Turtle,
      countLineTo (applyCmds cosD sinD cs t).ops =
        countLineTo t.ops + countForward cs := by
  have happ : ∀ (a b : List TurtleOp),
      countLineTo (a ++ b) = countLineTo a + countLineTo b := by
    intro a b
    induction a with
    | nil => simp [countLineTo]
    | cons op rest ih =>
        cases op <;>
          simp only [List.cons_append, countLineTo, List.append_eq, ih] <;> omega
  induction cs with
  | nil => intro t; rfl
  | cons c cs ih =>
      intro t
      rw [applyCmds_cons, ih]
      cases c <;>
        simp only [applyCmd, Turtle.forward, Turtle.turn, Turtle.move_to,
          Turtle.set_color, countForward, happ, countLineTo] <;> omega

/-- Only `turn` changes the heading, adding its argument. -/
theorem applyCmds_heading (cosD sinD : ℚ → ℚ) (cs : List Cmd) :
    ∀ t : Turtle, (applyCmds cosD sinD cs t).h = t.h + turnSum cs := by
  induction cs with
  | nil => intro t; simp [applyCmds_nil, turnSum]
  | cons c cs ih =>
      intro t
      rw [applyCmds_cons, ih]
      cases c <;> simp only [applyCmd, Turtle.forward, Turtle.turn,
        Turtle.move_to, Turtle.set_color, turnSum] <;> ring

/-- Invariant: replaying a reachable turtle's log leaves the iterator pen
at the truncation of the live cursor. -/
theorem applyCmds_pen (cosD sinD : ℚ → ℚ) (cs : List Cmd) :
    ∀ t : Turtle,
      (iterState t.ops 0 0 (255, 255, 255)).1 = truncQ t.x ∧
        (iterState t.ops 0 0 (255, 255, 255)).2.1 = truncQ t.y →
      (iterState (applyCmds cosD sinD cs t).ops 0 0 (255, 255, 255)).1 =
          truncQ (applyCmds cosD sinD cs t).x ∧
        (iterState (applyCmds cosD sinD cs t).ops 0 0 (255, 255, 255)).2.1 =
          truncQ (applyCmds cosD sinD cs t).y := by
  induction cs with
  | nil => intro t h; exact h
  | cons c cs ih =>
      intro t h
      rw [applyCmds_cons]
      refine ih _ ?_
      cases c with
      | forward d =>
          simp only [applyCmd, Turtle.forward, iterState_append, iterState]
          exact ⟨trivial, trivial⟩
      | turn deg =>
          simpa only [applyCmd, Turtle.turn] using h
      | moveTo nx ny =>
          simp only [applyCmd, Turtle.move_to, iterState_append, iterState]
          exact ⟨trivial, trivial⟩
      | setColor r g b =>
          simp only [applyCmd, Turtle.set_color, iterState_append, iterState]
          exact h

/-- A command sequence without `set_color` appends no `SetColor` op. -/
theorem applyCmds_noSetColor (cosD sinD : ℚ → ℚ) (cs : List Cmd)
    (hcs : ∀ c ∈ cs, c.isSetColor = false) :
    ∀ t : Turtle, (∀ op ∈ t.ops, op.colorOf = none) →
      ∀ op ∈ (applyCmds cosD sinD cs t).ops, op.colorOf = none := by
  induction cs with
  | nil => intro t h; exact h
  | cons c cs ih =>
      intro t h
      rw [applyCmds_cons]
      refine ih (fun c hc => hcs c (List.mem_cons_of_mem _ hc)) _ ?_
      cases c with
      | forward d =>
          intro op hop
          simp only [applyCmd, Turtle.forward, List.mem_append,
            List.mem_singleton] at hop
          rcases hop with hop | rfl
          · exact h op hop
          · rfl
      | turn deg => exact h
      | moveTo nx ny =>
          intro op hop
          simp only [applyCmd, Turtle.move_to, List.mem_append,
            List.mem_singleton] at hop
          rcases hop with hop | rfl
          · exact h op hop
          · rfl
      | setColor r g b =>
          have : Cmd.isSetColor (Cmd.setColor r g b) = false :=
            hcs _ (List.mem_cons_self _ _)
          simp [Cmd.isSetColor] at this

/-- Replaying a log with no `SetColor` never changes the segment color. -/
theorem linesListFrom_constColor (ops : List TurtleOp)
    (hops : ∀ op ∈ ops, op.colorOf = none) :
    ∀ (x y : Int) (c : Color), ∀ l ∈ linesListFrom ops x y c, l.color = c := by
  induction ops with
  | nil => intro x y c l hl; simp [linesListFrom] at hl
  | cons op rest ih =>
      have hrest : ∀ op ∈ rest, op.colorOf = none :=
        fun op hop => hops op (List.mem_cons_of_mem _ hop)
      intro x y c l hl
      cases op with
      | moveTo tx ty => exact ih hrest _ _ _ l hl
      | lineTo tx ty =>
          simp only [linesListFrom, List.mem_cons] at hl
          rcases hl with rfl | hl
          · rfl
          · exact ih hrest _ _ _ l hl
      | setColor r g b =>
          have : TurtleOp.colorOf (TurtleOp.setColor r g b) = none :=
            hops _ (List.mem_cons_self _ _)
          simp [TurtleOp.colorOf] at this

/-! ## Bridging lemmas -/

/-- Iterating `lines()` to exhaustion yields the direct fold of the op
log from `(0, 0)` and white. -/
theorem lines_toList_eq (t : Turtle) :
    t.lines.toList = linesListFrom t.ops 0 0 (255, 255, 255) := by
  simp only [Turtle.lines, Lines.toList]
  exact linesIter_eq_listFrom t.ops _ 0 0 _ (Nat.lt_succ_self _)

/-- The pen position of the exhausted iterator is the `iterState` fold of
the op log. -/
theorem lines_endState_pen (t : Turtle) :
    ((t.lines.endState).x, (t.lines.endState).y) =
      ((iterState t.ops 0 0 (255, 255, 255)).1,
       (iterState t.ops 0 0 (255, 255, 255)).2.1) := by
  simp only [Turtle.lines, Lines.endState]
  rw [linesIterEnd_eq_iterState t.ops _ 0 0 _ (Nat.lt_succ_self _)]

/-! ## Claim theorems -/

/-- C1: for every command sequence C issued to a freshly created turtle,
replaying the resulting op log from its head through the segment iterator
leaves the iterator's integer pen position at the truncation of the live
`(x, y)` returned by `position()`, and `position()` after C equals the
fold of C's state updates (spec §4.1 table) starting from `(0, 0, 0°)`. -/
theorem c1_replay_reconstructs_position (cosD sinD : ℚ → ℚ) (cs : List Cmd) :
    ((((applyCmds cosD sinD cs Turtle.new).lines.endState).x,
       ((applyCmds cosD sinD cs Turtle.new).lines.endState).y) =
      (truncQ (applyCmds cosD sinD cs Turtle.new).x,
       truncQ (applyCmds cosD sinD cs Turtle.new).y)) ∧
    (applyCmds cosD sinD cs Turtle.new).position =
      ((specFold cosD sinD cs).1, (specFold cosD sinD cs).2.1) := by
  constructor
  · have hpen := applyCmds_pen cosD sinD cs Turtle.new ⟨rfl, rfl⟩
    rw [lines_endState_pen, hpen.1, hpen.2]
  · have hc := applyCmds_cursor cosD sinD cs Turtle.new
    simp only [Turtle.new] at hc
    have h1 : (applyCmds cosD sinD cs Turtle.new).x = (specFold cosD sinD cs).1 :=
      congrArg Prod.fst hc
    have h2 : (applyCmds cosD sinD cs Turtle.new).y = (specFold cosD sinD cs).2.1 :=
      congrArg (fun p => p.2.1) hc
    rw [Turtle.position, h1, h2]

/-- C2: for every command sequence C, the number of segments emitted by
`lines()` equals the number of `forward` calls in C; and over any op log,
the number of segments equals the number of `LineTo` ops (so `MoveTo` and
`SetColor` emit none). -/
theorem c2_segment_count (cosD sinD : ℚ → ℚ) (cs : List Cmd) :
    ((applyCmds cosD sinD cs Turtle.new).lines.toList).length = countForward cs ∧
    ∀ (ops : List TurtleOp) (x y : Int) (c : Color),
      (linesListFrom ops x y c).length = countLineTo ops := by
  refine ⟨?_, fun ops x y c => linesListFrom_length ops x y c⟩
  rw [lines_toList_eq, linesListFrom_length, applyCmds_countLineTo]
  simp [Turtle.new, countLineTo]

/-- C3: calling `lines()` twice on the same turtle and iterating both to
exhaustion yields identical segment sequences, and each new iterator
restarts from pen position `(0, 0)` and color white. -/
theorem c3_restartability (t : Turtle) :
    t.lines.toList = t.lines.toList ∧
    t.lines.x = 0 ∧ t.lines.y = 0 ∧ t.lines.color = (255, 255, 255) ∧
    t.lines.toList = linesListFrom t.ops 0 0 (255, 255, 255) :=
  ⟨rfl, rfl, rfl, rfl, lines_toList_eq t⟩

/-- C4: for every command sequence with no `set_color`, every emitted
segment is white; and in any op log, the segment emitted for a `LineTo`
carries the color set by the most recent preceding `SetColor` op, white
if there is none. -/
theorem c4_segment_colors :
    (∀ (cosD sinD : ℚ → ℚ) (cs : List Cmd), (∀ c ∈ cs, c.isSetColor = false) →
      ∀ l ∈ (applyCmds cosD sinD cs Turtle.new).lines.toList,
        l.color = (255, 255, 255)) ∧
    (∀ (pre post : List TurtleOp) (tx ty : ℚ),
      ((linesListFrom (pre ++ TurtleOp.lineTo tx ty :: post) 0 0
          (255, 255, 255))[countLineTo pre]?).map Line.color =
        some (mostRecentColor pre)) := by
  constructor
  · intro cosD sinD cs hcs l hl
    rw [lines_toList_eq] at hl
    refine linesListFrom_constColor _ ?_ _ _ _ l hl
    refine applyCmds_noSetColor cosD sinD cs hcs Turtle.new ?_
    intro op hop
    simp [Turtle.new] at hop
  · intro pre post tx ty
    rw [linesListFrom_append]
    have hlen := linesListFrom_length pre 0 0 (255, 255, 255)
    rw [← hlen, List.getElem?_append_right (le_refl _), Nat.sub_self]
    simp only [linesListFrom, List.getElem?_cons_zero, Option.map_some]
    rw [iterState_color]
    rfl

/-- C6: `turn(deg)` adds `deg` to the heading with no normalization,
appends no op, and leaves `x` and `y` unchanged; consequently `heading()`
after any command sequence is the cumulative sum of all `turn`
arguments. -/
theorem c6_turn_unnormalized :
    (∀ (t : Turtle) (d : ℚ), t.turn d = ⟨t.x, t.y, t.h + d, t.ops⟩) ∧
    (∀ (cosD sinD : ℚ → ℚ) (cs : List Cmd),
      (applyCmds cosD sinD cs Turtle.new).heading = turnSum cs) := by
  refine ⟨fun t d => rfl, fun cosD sinD cs => ?_⟩
  rw [Turtle.heading, applyCmds_heading]
  simp [Turtle.new]

/-! ## Lemmas about the Bresenham loop -/

/-- Every iteration of `drawLoop` either breaks or strictly shrinks
`drawMeasure` (at least one of the two step conditions holds because
`dy ≤ 0 ≤ dx`), so `drawLoop` returns within any fuel exceeding the
measure. -/
theorem drawLoop_isSome (x1 y1 dx dy sx sy : Int) (px : Color)
    (hdx : 0 ≤ dx) (hdy : dy ≤ 0) (hsx : sx = 1 ∨ sx = -1)
    (hsy : sy = 1 ∨ sy = -1) :
    ∀ (fuel : Nat) (x y err : Int) (img : RgbImage), 0 < fuel →
      (inbounds img.width img.height x y = true →
        drawMeasure img.width img.height sx sy x y < fuel) →
      (drawLoop x1 y1 dx dy sx sy px fuel x y err img).isSome = true := by
  intro fuel
  induction fuel with
  | zero => intro x y err img h0 _; omega
  | succ n ih =>
      intro x y err img _ hm
      cases hin : inbounds img.width img.height x y with
      | false => simp [drawLoop, hin]
      | true =>
          have hb : 0 ≤ x ∧ 0 ≤ y ∧ x < (img.width : Int) ∧
              y < (img.height : Int) := by
            have hq := hin
            simp only [inbounds, Bool.and_eq_true, decide_eq_true_eq] at hq
            exact ⟨hq.1.1.1, hq.1.1.2, hq.1.2, hq.2⟩
          have hmea := hm hin
          have hlow : 1 ≤ drawMeasure img.width img.height sx sy x y := by
            rcases hsx with rfl | rfl <;> rcases hsy with rfl | rfl <;>
              simp [drawMeasure] <;> omega
          by_cases hend : x = x1 ∧ y = y1
          · rcases hend with ⟨rfl, rfl⟩
            simp [drawLoop, hin]
          · simp only [drawLoop, hin, Bool.true_eq_false, if_false, hend,
              ite_false]
            refine ih _ _ _ _ (by omega) ?_
            intro _
            simp only [RgbImage.put_pixel]
            rcases hsx with rfl | rfl <;> rcases hsy with rfl | rfl <;>
              by_cases h1 : 2 * err ≥ dy <;> by_cases h2 : 2 * err ≤ dx <;>
                simp [drawMeasure, h1, h2] at hmea ⊢ <;> omega

/-- A successful `drawLoop` run preserves the image dimensions and adds
only pixels inside `[0,w) × [0,h)`. -/
theorem drawLoop_writes (x1 y1 dx dy sx sy : Int) (px : Color) :
    ∀ (fuel : Nat) (x y err : Int) (img img' : RgbImage),
      drawLoop x1 y1 dx dy sx sy px fuel x y err img = some img' →
      img'.width = img.width ∧ img'.height = img.height ∧
      ∀ p ∈ img'.pixels, p ∈ img.pixels ∨
        (p.1 < img.width ∧ p.2.1 < img.height) := by
  intro fuel
  induction fuel with
  | zero => intro x y err img img' h; simp [drawLoop] at h
  | succ n ih =>
      intro x y err img img' h
      rw [drawLoop] at h
      by_cases hin : inbounds img.width img.height x y = false
      · rw [if_pos hin] at h
        obtain rfl := Option.some.inj h
        exact ⟨rfl, rfl, fun p hp => Or.inl hp⟩
      · rw [if_neg hin] at h
        have hb : 0 ≤ x ∧ 0 ≤ y ∧ x < (img.width : Int) ∧
            y < (img.height : Int) := by
          have hq : inbounds img.width img.height x y = true := by
            cases hw : inbounds img.width img.height x y
            · exact absurd hw hin
            · rfl
          simp only [inbounds, Bool.and_eq_true, decide_eq_true_eq] at hq
          exact ⟨hq.1.1.1, hq.1.1.2, hq.1.2, hq.2⟩
        by_cases hend : x = x1 ∧ y = y1
        · rw [if_pos hend] at h
          obtain rfl := Option.some.inj h
          refine ⟨rfl, rfl, fun p hp => ?_⟩
          simp only [RgbImage.put_pixel, List.mem_cons] at hp
          rcases hp with rfl | hp
          · refine Or.inr ⟨?_, ?_⟩
            · show x.toNat < img.width
              omega
            · show y.toNat < img.height
              omega
          · exact Or.inl hp
        · rw [if_neg hend] at h
          obtain ⟨hw, hh, hp⟩ := ih _ _ _ _ _ h
          refine ⟨hw, hh, fun p hpin => ?_⟩
          rcases hp p hpin with hmem | hbnd
          · simp only [RgbImage.put_pixel, List.mem_cons] at hmem
            rcases hmem with rfl | hmem
            · refine Or.inr ⟨?_, ?_⟩
              · show x.toNat < img.width
                omega
              · show y.toNat < img.height
                omega
            · exact Or.inl hmem
          · exact Or.inr hbnd

/-- lib.rs lines 227-229: the loop's first action is the bounds check; an
out-of-bounds cursor returns the image unchanged at once, writing
nothing. -/
theorem drawLoop_stops_oob (x1 y1 dx dy sx sy : Int) (px : Color)
    (fuel : Nat) (x y err : Int) (img : RgbImage)
    (h : inbounds img.width img.height x y = false) :
    drawLoop x1 y1 dx dy sx sy px (fuel + 1) x y err img = some img := by
  rw [drawLoop, if_pos h]

/-- C5: the raster line drawer writes pixels only at coordinates inside
`[0,w) × [0,h)`; the scan stops immediately at the first out-of-bounds
pixel; and a segment whose start point lies outside the image bounds
produces no pixels at all, even if the segment later re-enters the
image. -/
theorem c5_draw_in_bounds :
    (∀ (img : RgbImage) (line : Line), ∀ p ∈ (draw_line_img img line).pixels,
      p ∈ img.pixels ∨ (p.1 < img.width ∧ p.2.1 < img.height)) ∧
    (∀ (x1 y1 dx dy sx sy : Int) (px : Color) (fuel : Nat) (x y err : Int)
      (img : RgbImage), inbounds img.width img.height x y = false →
      drawLoop x1 y1 dx dy sx sy px (fuel + 1) x y err img = some img) ∧
    (∀ (img : RgbImage) (line : Line),
      inbounds img.width img.height line.start.1 line.start.2 = false →
      draw_line_img img line = img) := by
  refine ⟨?_, drawLoop_stops_oob, ?_⟩
  · intro img line p hp
    cases hcall : drawLineCall img line with
    | none => rw [draw_line_img, hcall] at hp; exact Or.inl hp
    | some img' =>
        rw [draw_line_img, hcall] at hp
        rw [drawLineCall] at hcall
        exact (drawLoop_writes _ _ _ _ _ _ _ _ _ _ _ _ _ hcall).2.2 p hp
  · intro img line h
    have hstop := drawLoop_stops_oob line.endp.1 line.endp.2
      |line.endp.1 - line.start.1| (-|line.endp.2 - line.start.2|)
      (if line.start.1 < line.endp.1 then 1 else -1)
      (if line.start.2 < line.endp.2 then 1 else -1) line.color
      (img.width + img.height + 1) line.start.1 line.start.2
      (|line.endp.1 - line.start.1| + -|line.endp.2 - line.start.2|) img h
    rw [draw_line_img, drawLineCall]
    rw [show img.width + img.height + 2 = img.width + img.height + 1 + 1 from rfl]
    rw [hstop]

/-- C10, amended: with the loop's arithmetic taken as exact (unbounded)
integers, the raster line drawer's loop terminates for every pair of
integer endpoints and every image size: the scan either hits the
endpoint or leaves the bounded image, within `width + height + 2`
iterations (each non-breaking iteration strictly shrinks `drawMeasure`).
Under the source's release-mode `i32` wrapping this fails — see the
32-bit counterexample below. -/
theorem c10_draw_terminates (img : RgbImage) (line : Line) :
    (drawLineCall img line).isSome = true := by
  rw [drawLineCall]
  refine drawLoop_isSome _ _ _ _ _ _ _ (abs_nonneg _) (neg_nonpos.mpr (abs_nonneg _))
    ?_ ?_ _ _ _ _ _ (by omega) ?_
  · by_cases hx : line.start.1 < line.endp.1
    · exact Or.inl (if_pos hx)
    · exact Or.inr (if_neg hx)
  · by_cases hy : line.start.2 < line.endp.2
    · exact Or.inl (if_pos hy)
    · exact Or.inr (if_neg hy)
  · intro hin
    have hb : 0 ≤ line.start.1 ∧ 0 ≤ line.start.2 ∧
        line.start.1 < (img.width : Int) ∧ line.start.2 < (img.height : Int) := by
      simp only [inbounds, Bool.and_eq_true, decide_eq_true_eq] at hin
      exact ⟨hin.1.1.1, hin.1.1.2, hin.1.2, hin.2⟩
    rw [drawMeasure]
    split_ifs <;> omega

/-- C10 counterexample: with the source's release-mode `i32` arithmetic,
the drawer does not terminate for every endpoint pair.  For the segment
from `(0, 0)` to `(-2147483648, 5)` on a 500×500 image, the wrapped setup
gives `dx = i32::abs(i32::MIN) = -2147483648`, `dy = -5`,
`err = 2147483643`, so `e2 = wrap32(2·err) = -10` satisfies neither
`e2 ≥ dy` nor `e2 ≤ dx`: the cursor and `err` never change, the cursor
stays in bounds and never equals the endpoint, and the loop runs forever
(no fuel makes it return). -/
theorem c10_draw_terminates_counterexample :
    ¬ ∃ n : Nat, (drawLineCall32 (RgbImage.from_pixel 500 500 (0, 0, 0))
      (Line.mk (0, 0) (-2147483648, 5) (255, 255, 255)) n).isSome = true := by
  have spin : ∀ (n : Nat) (img : RgbImage), img.width = 500 → img.height = 500 →
      drawLoop32 (-2147483648) 5 (-2147483648) (-5) (-1) 1 (255, 255, 255) n
        0 0 2147483643 img = none := by
    intro n
    induction n with
    | zero => intro img hw hh; rfl
    | succ m ih =>
        intro img hw hh
        rw [drawLoop32]
        simp only [hw, hh]
        rw [if_neg (by decide : ¬ inbounds 500 500 0 0 = false)]
        rw [if_neg (by decide : ¬((0 : Int) = -2147483648 ∧ (0 : Int) = 5))]
        simp only [if_neg (by decide : ¬ wrap32 (2 * 2147483643) ≥ (-5 : Int)),
          if_neg (by decide : ¬ wrap32 (2 * 2147483643) ≤ (-2147483648 : Int))]
        exact ih (img.put_pixel 0 0 (255, 255, 255)) hw hh
  rintro ⟨n, hn⟩
  have hcall : drawLineCall32 (RgbImage.from_pixel 500 500 (0, 0, 0))
      (Line.mk (0, 0) (-2147483648, 5) (255, 255, 255)) n =
      drawLoop32 (-2147483648) 5 (-2147483648) (-5) (-1) 1 (255, 255, 255) n
        0 0 2147483643 (RgbImage.from_pixel 500 500 (0, 0, 0)) := rfl
  rw [hcall, spin n _ rfl rfl] at hn
  simp at hn

/-- Witness for `c4_segment_colors` at a concrete command sequence and a
concrete log split. -/
theorem c4_segment_colors_witness :
    (∀ c ∈ [Cmd.forward 5], c.isSetColor = false) ∧
    ((⟨(0, 0), (5, 0), (255, 255, 255)⟩ : Line) ∈
      (applyCmds (fun _ => 1) (fun _ => 0) [Cmd.forward 5] Turtle.new).lines.toList) ∧
    (⟨(0, 0), (5, 0), (255, 255, 255)⟩ : Line).color = (255, 255, 255) ∧
    ((linesListFrom ([TurtleOp.setColor 1 2 3] ++ TurtleOp.lineTo 7 8 :: []) 0 0
        (255, 255, 255))[countLineTo [TurtleOp.setColor 1 2 3]]?).map Line.color =
      some (mostRecentColor [TurtleOp.setColor 1 2 3]) := by
  have ht : applyCmds (fun _ => 1) (fun _ => 0) [Cmd.forward 5] Turtle.new =
      ⟨5, 0, 0, [TurtleOp.lineTo 5 0]⟩ := by
    simp only [applyCmds, applyCmd, Turtle.forward, Turtle.new, List.foldl_cons,
      List.foldl_nil, Turtle.mk.injEq, List.cons.injEq, TurtleOp.lineTo.injEq,
      and_true, List.nil_eq]
    norm_num
  have hmem : (⟨(0, 0), (5, 0), (255, 255, 255)⟩ : Line) ∈
      (applyCmds (fun _ => 1) (fun _ => 0) [Cmd.forward 5] Turtle.new).lines.toList := by
    rw [ht]; decide
  exact ⟨by decide, hmem,
    c4_segment_colors.1 (fun _ => 1) (fun _ => 0) [Cmd.forward 5] (by decide) _ hmem,
    c4_segment_colors.2 [TurtleOp.setColor 1 2 3] [] 7 8⟩

/-- Witness for `c5_draw_in_bounds` at a concrete 3×3 image: an in-bounds
segment whose written pixel the first conjunct bounds, an out-of-bounds
loop state, and a segment starting at `(-5, 0)` that draws nothing. -/
theorem c5_draw_in_bounds_witness :
    inbounds (RgbImage.from_pixel 3 3 (0, 0, 0)).width
        (RgbImage.from_pixel 3 3 (0, 0, 0)).height (-5) 0 = false ∧
    draw_line_img (RgbImage.from_pixel 3 3 (0, 0, 0))
        (Line.mk (-5, 0) (1, 0) (9, 9, 9)) = RgbImage.from_pixel 3 3 (0, 0, 0) ∧
    (((0, 0, (9, 9, 9)) : Nat × Nat × Color) ∈
      (draw_line_img (RgbImage.from_pixel 3 3 (0, 0, 0))
        (Line.mk (0, 0) (1, 0) (9, 9, 9))).pixels) ∧
    ((((0, 0, (9, 9, 9)) : Nat × Nat × Color) ∈ (RgbImage.from_pixel 3 3 (0, 0, 0)).pixels ∨
      (((0, 0, (9, 9, 9)) : Nat × Nat × Color).1 < (RgbImage.from_pixel 3 3 (0, 0, 0)).width ∧
        (((0, 0, (9, 9, 9)) : Nat × Nat × Color)).2.1 <
          (RgbImage.from_pixel 3 3 (0, 0, 0)).height))) ∧
    drawLoop 0 0 1 0 1 1 (9, 9, 9) 6 (-1) 0 1 (RgbImage.from_pixel 3 3 (0, 0, 0)) =
      some (RgbImage.from_pixel 3 3 (0, 0, 0)) :=
  ⟨by decide,
   c5_draw_in_bounds.2.2 (RgbImage.from_pixel 3 3 (0, 0, 0))
     (Line.mk (-5, 0) (1, 0) (9, 9, 9)) (by decide),
   by decide,
   c5_draw_in_bounds.1 (RgbImage.from_pixel 3 3 (0, 0, 0))
     (Line.mk (0, 0) (1, 0) (9, 9, 9)) ((0, 0, (9, 9, 9)) : Nat × Nat × Color)
     (by decide),
   c5_draw_in_bounds.2.1 0 0 1 0 1 1 (9, 9, 9) 5 (-1) 0 1
     (RgbImage.from_pixel 3 3 (0, 0, 0)) (by decide)⟩

/-- C7: rendering a single white horizontal segment from `(10,10)` to
`(20,10)` (a `move_to(10,10)` followed by a `forward(10)` at heading 0)
through `draw_png().save` with its 500×500 black-background defaults
writes exactly the 11 white pixels of row 10, columns 10 through 20, and
leaves every other pixel black. -/
theorem c7_png_horizontal_segment (cosD sinD : ℚ → ℚ)
    (hcos : cosD 0 = 1) (hsin : sinD 0 = 0) :
    ∀ i j : Nat, i < 500 → j < 500 →
      (PngTurtle.save (Turtle.draw_png
          ((Turtle.new.move_to 10 10).forward cosD sinD 10))).get i j =
        if j = 10 ∧ 10 ≤ i ∧ i ≤ 20 then (255, 255, 255) else (0, 0, 0) := by
  have ht : (Turtle.new.move_to 10 10).forward cosD sinD 10 =
      ⟨20, 10, 0, [TurtleOp.moveTo 10 10, TurtleOp.lineTo 20 10]⟩ := by
    simp only [Turtle.new, Turtle.move_to, Turtle.forward, hcos, hsin,
      Turtle.mk.injEq, List.cons.injEq, TurtleOp.lineTo.injEq,
      TurtleOp.moveTo.injEq]
    norm_num
  rw [ht]
  have himg : PngTurtle.save (Turtle.draw_png
      (⟨20, 10, 0, [TurtleOp.moveTo 10 10, TurtleOp.lineTo 20 10]⟩ : Turtle)) =
      ⟨500, 500, (0, 0, 0),
        [(20, 10, (255, 255, 255)), (19, 10, (255, 255, 255)),
         (18, 10, (255, 255, 255)), (17, 10, (255, 255, 255)),
         (16, 10, (255, 255, 255)), (15, 10, (255, 255, 255)),
         (14, 10, (255, 255, 255)), (13, 10, (255, 255, 255)),
         (12, 10, (255, 255, 255)), (11, 10, (255, 255, 255)),
         (10, 10, (255, 255, 255))]⟩ := by
    decide
  rw [himg]
  intro i j hi hj
  by_cases hin : j = 10 ∧ 10 ≤ i ∧ i ≤ 20
  · rw [if_pos hin]
    obtain ⟨rfl, h1, h2⟩ := hin
    interval_cases i <;> decide
  · rw [if_neg hin]
    have hfind : List.find? (fun p => p.1 == i && p.2.1 == j)
        ([(20, 10, (255, 255, 255)), (19, 10, (255, 255, 255)),
          (18, 10, (255, 255, 255)), (17, 10, (255, 255, 255)),
          (16, 10, (255, 255, 255)), (15, 10, (255, 255, 255)),
          (14, 10, (255, 255, 255)), (13, 10, (255, 255, 255)),
          (12, 10, (255, 255, 255)), (11, 10, (255, 255, 255)),
          (10, 10, (255, 255, 255))] : List (Nat × Nat × Color)) = none := by
      rw [List.find?_eq_none]
      intro x hx
      simp only [List.mem_cons, List.not_mem_nil, or_false] at hx
      rcases hx with rfl | rfl | rfl | rfl | rfl | rfl | rfl | rfl | rfl | rfl | rfl <;>
        simp <;> omega
    simp only [RgbImage.get, hfind]

/-- Witness for `c7_png_horizontal_segment` at concrete trig functions
and the pixel `(15, 10)` inside the drawn row. -/
theorem c7_png_horizontal_segment_witness :
    ((fun _ : ℚ => (1 : ℚ)) 0 = 1) ∧ ((fun _ : ℚ => (0 : ℚ)) 0 = 0) ∧
    ((15 : Nat) < 500) ∧ ((10 : Nat) < 500) ∧
    (PngTurtle.save (Turtle.draw_png
        ((Turtle.new.move_to 10 10).forward (fun _ => 1) (fun _ => 0) 10))).get 15 10 =
      if (10 : Nat) = 10 ∧ (10 : Nat) ≤ 15 ∧ (15 : Nat) ≤ 20 then (255, 255, 255)
      else (0, 0, 0) :=
  ⟨rfl, rfl, by decide, by decide,
   c7_png_horizontal_segment (fun _ => 1) (fun _ => 0) rfl rfl 15 10
     (by decide) (by decide)⟩

/-- C8 counterexample: the default window title of the animation
builder is `"turtle-rs"` (lib.rs line 271), not `"turtle"` as claimed. -/
theorem c8_default_title_counterexample :
    ¬ (Turtle.new.draw_sdl).title = "turtle" := by
  decide

/-- C8 amended: when no title is configured on the animation renderer's
builder, the window title defaults to `"turtle-rs"`. -/
theorem c8_default_title (t : Turtle) :
    (SdlTurtle.new t).title = "turtle-rs" :=
  rfl

/-- C9 counterexample: no flag read off the emitted `Line` values can
realize the claimed color-changed discipline, because the code's `Line`
carries only start, end and color: the logs
`[SetColor red, LineTo 10 0, LineTo 20 0]` and
`[SetColor red, LineTo 10 0, SetColor red, LineTo 20 0]` emit identical
second segments, yet the discipline requires flag `false` for the first
log and `true` for the second. -/
theorem c9_flag_counterexample :
    ¬ ∃ f : Line → Bool, ∀ ops : List TurtleOp,
      List.Forall₂ (fun (l : Line) (lf : Line × Bool) => l = lf.1 ∧ f l = lf.2)
        (linesListFrom ops 0 0 (255, 255, 255))
        (specFlagged ops 0 0 (255, 255, 255) false) := by
  rintro ⟨f, hf⟩
  have h1 := hf [TurtleOp.setColor 255 0 0, TurtleOp.lineTo 10 0,
    TurtleOp.lineTo 20 0]
  have h2 := hf [TurtleOp.setColor 255 0 0, TurtleOp.lineTo 10 0,
    TurtleOp.setColor 255 0 0, TurtleOp.lineTo 20 0]
  have e1 : linesListFrom [TurtleOp.setColor 255 0 0, TurtleOp.lineTo 10 0,
      TurtleOp.lineTo 20 0] 0 0 (255, 255, 255) =
      [⟨(0, 0), (10, 0), (255, 0, 0)⟩, ⟨(10, 0), (20, 0), (255, 0, 0)⟩] := by
    decide
  have e2 : specFlagged [TurtleOp.setColor 255 0 0, TurtleOp.lineTo 10 0,
      TurtleOp.lineTo 20 0] 0 0 (255, 255, 255) false =
      [(⟨(0, 0), (10, 0), (255, 0, 0)⟩, true),
       (⟨(10, 0), (20, 0), (255, 0, 0)⟩, false)] := by
    decide
  have e3 : linesListFrom [TurtleOp.setColor 255 0 0, TurtleOp.lineTo 10 0,
      TurtleOp.setColor 255 0 0, TurtleOp.lineTo 20 0] 0 0 (255, 255, 255) =
      [⟨(0, 0), (10, 0), (255, 0, 0)⟩, ⟨(10, 0), (20, 0), (255, 0, 0)⟩] := by
    decide
  have e4 : specFlagged [TurtleOp.setColor 255 0 0, TurtleOp.lineTo 10 0,
      TurtleOp.setColor 255 0 0, TurtleOp.lineTo 20 0] 0 0 (255, 255, 255) false =
      [(⟨(0, 0), (10, 0), (255, 0, 0)⟩, true),
       (⟨(10, 0), (20, 0), (255, 0, 0)⟩, true)] := by
    decide
  rw [e1, e2] at h1
  rw [e3, e4] at h2
  simp only [List.forall₂_cons, List.Forall₂.nil] at h1 h2
  have hfalse : f ⟨(10, 0), (20, 0), (255, 0, 0)⟩ = false := h1.2.1.2
  have htrue : f ⟨(10, 0), (20, 0), (255, 0, 0)⟩ = true := h2.2.1.2
  rw [hfalse] at htrue
  exact Bool.false_ne_true htrue

/-- C9 amended: the code's `Lines` iterator carries no color-changed
flag — its emitted `Line` values hold only start, end and color.  The
spec's flagged iterator (`specFlagged`, following spec §4.3) agrees with
the code's output once its flags are erased, and on the sequence
`set_color(255,0,0); forward(10); set_color(0,255,0); forward(10)` the
code emits two segments colored red and green while the spec-side flags
would be true for both; the code reports no such flag. -/
theorem c9_no_flag_in_code :
    (∀ (ops : List TurtleOp) (x y : Int) (c : Color) (b : Bool),
      (specFlagged ops x y c b).map Prod.fst = linesListFrom ops x y c) ∧
    (∀ cosD sinD : ℚ → ℚ, cosD 0 = 1 → sinD 0 = 0 →
      (applyCmds cosD sinD [Cmd.setColor 255 0 0, Cmd.forward 10,
          Cmd.setColor 0 255 0, Cmd.forward 10] Turtle.new).lines.toList =
        [⟨(0, 0), (10, 0), (255, 0, 0)⟩, ⟨(10, 0), (20, 0), (0, 255, 0)⟩] ∧
      (specFlagged (applyCmds cosD sinD [Cmd.setColor 255 0 0, Cmd.forward 10,
          Cmd.setColor 0 255 0, Cmd.forward 10] Turtle.new).ops 0 0
          (255, 255, 255) false).map Prod.snd = [true, true]) := by
  constructor
  · intro ops
    induction ops with
    | nil => intro x y c b; rfl
    | cons op rest ih =>
        intro x y c b
        cases op <;> simp only [specFlagged, linesListFrom, List.map_cons, ih,
          List.cons.injEq, and_true] <;> rfl
  · intro cosD sinD hcos hsin
    have ht : applyCmds cosD sinD [Cmd.setColor 255 0 0, Cmd.forward 10,
        Cmd.setColor 0 255 0, Cmd.forward 10] Turtle.new =
        ⟨20, 0, 0, [TurtleOp.setColor 255 0 0, TurtleOp.lineTo 10 0,
          TurtleOp.setColor 0 255 0, TurtleOp.lineTo 20 0]⟩ := by
      simp only [applyCmds, applyCmd, Turtle.forward, Turtle.set_color,
        Turtle.new, List.foldl_cons, List.foldl_nil, hcos, hsin,
        Turtle.mk.injEq, List.cons.injEq, TurtleOp.lineTo.injEq,
        TurtleOp.setColor.injEq, List.cons_append, List.nil_append]
      norm_num
    rw [ht]
    exact ⟨by decide, by decide⟩

/-- Witness for `c9_no_flag_in_code` at concrete trig functions. -/
theorem c9_no_flag_in_code_witness :
    ((fun _ : ℚ => (1 : ℚ)) 0 = 1) ∧ ((fun _ : ℚ => (0 : ℚ)) 0 = 0) ∧
    ((applyCmds (fun _ => 1) (fun _ => 0) [Cmd.setColor 255 0 0, Cmd.forward 10,
        Cmd.setColor 0 255 0, Cmd.forward 10] Turtle.new).lines.toList =
      [⟨(0, 0), (10, 0), (255, 0, 0)⟩, ⟨(10, 0), (20, 0), (0, 255, 0)⟩] ∧
    (specFlagged (applyCmds (fun _ => 1) (fun _ => 0) [Cmd.setColor 255 0 0,
        Cmd.forward 10, Cmd.setColor 0 255 0, Cmd.forward 10] Turtle.new).ops 0 0
        (255, 255, 255) false).map Prod.snd = [true, true]) :=
  ⟨rfl, rfl, c9_no_flag_in_code.2 (fun _ => 1) (fun _ => 0) rfl rfl⟩
